import Mathlib

/-!
Verification development for the javari-pdf repository.

We shallowly embed the credit-ledger operations of
`src/lib/supabase-client.ts`, the PDF operation handlers and page-range
parser of the PDF-operations route, the certificate-verification handler
of `src/app/api/pdf-signatures/route.ts`, and the credits-deduct route,
and prove or refute the specification claims about them.

Database effects are made explicit: a `LedgerState` carries the stored
balance row and the audit-transaction rows of the one user under
consideration, and a `DbEnv` is a failure schedule saying which of the
write operations issued by `deductCreditsAtomic` fail at the datastore
(a failed write leaves the state unchanged, exactly as a rejected SQL
update does).  Reads of an existing row are modelled as succeeding; a
read failure in the source merely rethrows before anything is written.
-/

set_option maxRecDepth 4000

namespace JavariPdf

/-- Stored state for one user: the `user_credits` row (none when the row
does not exist yet) and the `credit_transactions` rows (amounts, most
recent first). -/
structure LedgerState where
  balance : Option Int
  txns : List Int
deriving Repr, DecidableEq

/-- Failure schedule for the datastore writes issued by
`deductCreditsAtomic`: the balance-decrement update, the audit-log
insert, and the compensating rollback update. -/
structure DbEnv where
  deductUpdateFails : Bool
  logInsertFails : Bool
  rollbackUpdateFails : Bool
deriving Repr, DecidableEq

/-- Result of `checkUserCredits` in `src/lib/supabase-client.ts`. -/
structure CheckResult where
  hasCredits : Bool
  current : Int
deriving Repr, DecidableEq

/-- Embedding of `checkUserCredits(userId, required)`: select the
`credits` column of the user row; if the row is missing (PGRST116),
insert a row with 0 credits and report `hasCredits = false, current = 0`;
otherwise report `current >= required` and the current balance. -/
def checkUserCredits (st : LedgerState) (required : Int) :
    CheckResult × LedgerState :=
  match st.balance with
  | none => ({ hasCredits := false, current := 0 }, { st with balance := some 0 })
  | some b => ({ hasCredits := decide (required ≤ b), current := b }, st)

/-- Result shape of `deductCreditsAtomic`. -/
structure DeductResult where
  success : Bool
  remaining : Int
deriving Repr, DecidableEq

/-- Embedding of `deductCreditsAtomic(userId, amount, reason)` from
`src/lib/supabase-client.ts`: check the balance; on insufficient credits
return failure with the current balance; otherwise update the row to
`current - amount`, insert an audit transaction of `-amount`, and on an
insert error issue a compensating update back to `current` (whose own
error the source ignores) and return failure with `remaining = current`. -/
def deductCreditsAtomic (env : DbEnv) (st : LedgerState) (amount : Int) :
    DeductResult × LedgerState :=
  let res := checkUserCredits st amount
  let chk := res.1
  let st1 := res.2
  if ¬ chk.hasCredits then
    ({ success := false, remaining := chk.current }, st1)
  else if env.deductUpdateFails then
    ({ success := false, remaining := chk.current }, st1)
  else
    let st2 : LedgerState := { st1 with balance := some (chk.current - amount) }
    if env.logInsertFails then
      let st3 : LedgerState :=
        if env.rollbackUpdateFails then st2 else { st2 with balance := some chk.current }
      ({ success := false, remaining := chk.current }, st3)
    else
      ({ success := true, remaining := chk.current - amount },
       { st2 with txns := (-amount) :: st2.txns })

/-- C1: insufficient balance means failure carrying the current balance,
with no state change at all. -/
theorem deduct_insufficient_is_pure_failure (env : DbEnv) (st : LedgerState)
    (b amount : Int) (hb : st.balance = some b) (hlt : b < amount) :
    (deductCreditsAtomic env st amount).1.success = false ∧
    (deductCreditsAtomic env st amount).1.remaining = b ∧
    (deductCreditsAtomic env st amount).2 = st := by
  unfold deductCreditsAtomic checkUserCredits
  rw [hb]
  simp only
  have hdec : decide (amount ≤ b) = false := by
    simp [decide_eq_false_iff_not]
    omega
  simp [hdec]

theorem deduct_insufficient_is_pure_failure_witness :
    (deductCreditsAtomic ⟨false, false, false⟩ ⟨some 2, []⟩ 5).1.success = false ∧
    (deductCreditsAtomic ⟨false, false, false⟩ ⟨some 2, []⟩ 5).1.remaining = 2 ∧
    (deductCreditsAtomic ⟨false, false, false⟩ ⟨some 2, []⟩ 5).2 = ⟨some 2, []⟩ :=
  deduct_insufficient_is_pure_failure ⟨false, false, false⟩ ⟨some 2, []⟩ 2 5 rfl (by norm_num)

/-- C2: in the sequential case with no datastore failures, settling
`amount ≤ b` succeeds with `remaining = b - amount`, and an immediately
following `checkUserCredits` read observes the balance `b - amount`. -/
theorem deduct_sufficient_success_and_balance_read (st : LedgerState)
    (b amount : Int) (hb : st.balance = some b) (hle : amount ≤ b) :
    (deductCreditsAtomic ⟨false, false, false⟩ st amount).1.success = true ∧
    (deductCreditsAtomic ⟨false, false, false⟩ st amount).1.remaining = b - amount ∧
    (deductCreditsAtomic ⟨false, false, false⟩ st amount).2.balance = some (b - amount) ∧
    ∀ required : Int,
      (checkUserCredits (deductCreditsAtomic ⟨false, false, false⟩ st amount).2 required).1.current
        = b - amount := by
  unfold deductCreditsAtomic
  have hchk : checkUserCredits st amount =
      ({ hasCredits := decide (amount ≤ b), current := b }, st) := by
    unfold checkUserCredits
    rw [hb]
  rw [hchk]
  have hdec : decide (amount ≤ b) = true := by simpa using hle
  simp only [hdec]
  refine ⟨by simp, by simp, by simp, ?_⟩
  intro required
  unfold checkUserCredits
  simp

theorem deduct_sufficient_success_and_balance_read_witness :
    (deductCreditsAtomic ⟨false, false, false⟩ ⟨some 10, []⟩ 3).1.success = true ∧
    (deductCreditsAtomic ⟨false, false, false⟩ ⟨some 10, []⟩ 3).1.remaining = 7 ∧
    (deductCreditsAtomic ⟨false, false, false⟩ ⟨some 10, []⟩ 3).2.balance = some 7 ∧
    ∀ required : Int,
      (checkUserCredits (deductCreditsAtomic ⟨false, false, false⟩ ⟨some 10, []⟩ 3).2 required).1.current = 7 := by
  have h := deduct_sufficient_success_and_balance_read ⟨some 10, []⟩ 10 3 rfl (by norm_num)
  norm_num at h ⊢
  exact h

/-- C3 counterexample: when the balance decrement succeeds, the audit
insert fails, and the compensating rollback update also fails at the
datastore (its error is ignored by the source), the stored balance is
left at the deducted value, not restored to the pre-deduction value. -/
theorem deduct_rollback_not_guaranteed :
    (deductCreditsAtomic ⟨false, true, true⟩ ⟨some 5, []⟩ 3).2.balance = some 2 ∧
    (deductCreditsAtomic ⟨false, true, true⟩ ⟨some 5, []⟩ 3).2.balance ≠ some 5 ∧
    (deductCreditsAtomic ⟨false, true, true⟩ ⟨some 5, []⟩ 3).1.success = false := by
  refine ⟨?_, ?_, ?_⟩ <;> decide

/-- C3 amended: when the decrement succeeds and the audit insert fails,
the operation issues a compensating write of the pre-deduction balance
and returns failure; whenever that compensating write itself succeeds,
the stored balance is restored to `b`, and no audit row is kept. -/
theorem deduct_log_failure_compensates (env : DbEnv) (st : LedgerState)
    (b amount : Int) (hb : st.balance = some b) (hle : amount ≤ b)
    (hd : env.deductUpdateFails = false) (hl : env.logInsertFails = true) :
    (deductCreditsAtomic env st amount).1.success = false ∧
    (deductCreditsAtomic env st amount).2.txns = st.txns ∧
    (env.rollbackUpdateFails = false →
      (deductCreditsAtomic env st amount).2.balance = some b) := by
  unfold deductCreditsAtomic
  have hchk : checkUserCredits st amount =
      ({ hasCredits := decide (amount ≤ b), current := b }, st) := by
    unfold checkUserCredits
    rw [hb]
  rw [hchk]
  have hdec : decide (amount ≤ b) = true := by simpa using hle
  simp only [hdec, hd, hl]
  refine ⟨by simp, ?_, ?_⟩
  · by_cases hr : env.rollbackUpdateFails <;> simp [hr]
  · intro hr
    simp [hr]

theorem deduct_log_failure_compensates_witness :
    (deductCreditsAtomic ⟨false, true, false⟩ ⟨some 5, [7]⟩ 3).1.success = false ∧
    (deductCreditsAtomic ⟨false, true, false⟩ ⟨some 5, [7]⟩ 3).2.txns = [7] ∧
    ((false : Bool) = false →
      (deductCreditsAtomic ⟨false, true, false⟩ ⟨some 5, [7]⟩ 3).2.balance = some 5) :=
  deduct_log_failure_compensates ⟨false, true, false⟩ ⟨some 5, [7]⟩ 5 3 rfl (by norm_num) rfl rfl

/-! Page-range parser from the PDF-operations route (`parsePageRange`). -/

/-- JS `String.prototype.trim`: drop whitespace from both ends of a
character list. -/
def trimChars (cs : List Char) : List Char :=
  ((cs.dropWhile Char.isWhitespace).reverse.dropWhile Char.isWhitespace).reverse

/-- JS `String.prototype.split` with a one-character separator: split at
every occurrence, keeping empty pieces, with `[""]` for the empty
string. -/
def splitOnChar (sep : Char) : List Char → List (List Char)
  | [] => [[]]
  | c :: rest =>
    if c = sep then [] :: splitOnChar sep rest
    else
      match splitOnChar sep rest with
      | [] => [[c]]
      | g :: gs => (c :: g) :: gs

/-- Value of the leading digit run of a character list, or `none` when
there is no leading digit: the core of the JS `parseInt` on an
already-trimmed string. -/
def digitsVal (cs : List Char) : Option Nat :=
  let ds := cs.takeWhile (·.isDigit)
  if ds.isEmpty then none
  else some (ds.foldl (fun a c => a * 10 + (c.toNat - '0'.toNat)) 0)

/-- Embedding of JS `parseInt(s)` on a trimmed string: an optional sign
followed by a digit run; `none` models `NaN`. -/
def jsParseInt (cs : List Char) : Option Int :=
  match cs with
  | '-' :: rest => (digitsVal rest).map (fun n => -(n : Int))
  | '+' :: rest => (digitsVal rest).map (fun n => (n : Int))
  | other => (digitsVal other).map (fun n => (n : Int))

/-- Indices contributed by a `start-end` part: the JS loop
`for (i = start; i <= end && i <= totalPages; i++) if (i >= 1) push(i-1)`,
which runs zero times when either bound is `NaN`. -/
def rangePartIndices (s e : Option Int) (totalPages : Int) : List Int :=
  match s, e with
  | some a, some b =>
    if max a 1 ≤ min b totalPages then
      (List.range (min b totalPages + 1 - max a 1).toNat).map
        (fun (k : Nat) => max a 1 + (k : Int) - 1)
    else []
  | _, _ => []

/-- Indices contributed by one comma-separated part of the range
expression (already trimmed): a `-` part yields the clipped range above,
a plain part yields its page when `1 <= num <= totalPages`. -/
def splitPart (trimmed : List Char) (totalPages : Int) : List Int :=
  if trimmed.contains '-' then
    rangePartIndices
      (((splitOnChar '-' trimmed).map (fun p => jsParseInt (trimChars p))).getD 0 none)
      (((splitOnChar '-' trimmed).map (fun p => jsParseInt (trimChars p))).getD 1 none)
      totalPages
  else
    match jsParseInt trimmed with
    | some num => if 1 ≤ num ∧ num ≤ totalPages then [num - 1] else []
    | none => []

/-- Embedding of `[...new Set(indices)].sort((a, b) => a - b)`: the
distinct collected indices in ascending order (which occurrence the JS
`Set` keeps is irrelevant after the full numeric sort). -/
def dedupSortIndices (l : List Int) : List Int :=
  (l.dedup).insertionSort (· ≤ ·)

/-- Embedding of `parsePageRange(range, totalPages)` from the
PDF-operations route. -/
def parsePageRange (range : String) (totalPages : Int) : List Int :=
  dedupSortIndices
    ((splitOnChar ',' range.data).flatMap (fun part => splitPart (trimChars part) totalPages))

theorem rangePartIndices_bounds {s e : Option Int} {n x : Int}
    (hx : x ∈ rangePartIndices s e n) : 0 ≤ x ∧ x < n := by
  rcases s with _ | a
  · simp [rangePartIndices] at hx
  · rcases e with _ | b
    · simp [rangePartIndices] at hx
    · simp only [rangePartIndices] at hx
      by_cases hle : max a 1 ≤ min b n
      · rw [if_pos hle] at hx
        rcases List.mem_map.mp hx with ⟨k, hk, rfl⟩
        have hk' := List.mem_range.mp hk
        constructor <;> omega
      · rw [if_neg hle] at hx
        simp at hx

theorem splitPart_bounds {t : List Char} {n x : Int} (hx : x ∈ splitPart t n) :
    0 ≤ x ∧ x < n := by
  unfold splitPart at hx
  split at hx
  · exact rangePartIndices_bounds hx
  · split at hx
    · rename_i num
      split at hx
      · rename_i hb
        simp at hx
        omega
      · simp at hx
    · simp at hx

theorem parsePageRange_props (r : String) (n : Int) :
    (parsePageRange r n).Sorted (· < ·) ∧ (parsePageRange r n).Nodup ∧
    ∀ x ∈ parsePageRange r n, 0 ≤ x ∧ x < n := by
  have hnd : (parsePageRange r n).Nodup := by
    unfold parsePageRange dedupSortIndices
    exact (List.perm_insertionSort _ _).nodup_iff.mpr (List.nodup_dedup _)
  have hsorted : (parsePageRange r n).Sorted (· ≤ ·) := by
    unfold parsePageRange dedupSortIndices
    exact List.sorted_insertionSort _ _
  refine ⟨hsorted.lt_of_le hnd, hnd, ?_⟩
  intro x hx
  unfold parsePageRange dedupSortIndices at hx
  rw [List.mem_insertionSort, List.mem_dedup, List.mem_flatMap] at hx
  rcases hx with ⟨part, _, hmem⟩
  exact splitPart_bounds hmem

/-- C4: for every range expression and page count, the parser returns a
strictly ascending, duplicate-free list of indices inside `[0, n)`. -/
theorem parsePageRange_sorted_nodup_bounds (r : String) (n : Int) :
    (parsePageRange r n).Sorted (· < ·) ∧ (parsePageRange r n).Nodup ∧
    ∀ x ∈ parsePageRange r n, 0 ≤ x ∧ x < n :=
  parsePageRange_props r n

theorem parsePageRange_sorted_nodup_bounds_witness :
    (parsePageRange "1-3,5" 10).Sorted (· < ·) ∧ (parsePageRange "1-3,5" 10).Nodup ∧
    ∀ x ∈ parsePageRange "1-3,5" 10, 0 ≤ x ∧ x < 10 :=
  parsePageRange_sorted_nodup_bounds "1-3,5" 10

/-! PDF document transform handlers from the PDF-operations route.

A loaded document is its list of pages; a page records its content, its
current rotation (`page.getRotation().angle`), and the texts drawn onto
it.  `copyPages` models `PDFDocument.copyPages` followed by `addPage`:
it resolves each requested index against the source document, failing
(as the library throws) on an index that does not resolve to a page. -/

/-- A page of a loaded PDF document. -/
structure PdfPage where
  content : Nat
  rotation : Int
  drawn : List String
deriving Repr, DecidableEq

/-- Resolve each index against the source pages; an unresolvable index
is a library-level error. -/
def copyPages {α : Type} (pages : List α) (idxs : List Int) : Except String (List α) :=
  match idxs.mapM (fun i => if 0 ≤ i then pages[i.toNat]? else none) with
  | some res => Except.ok res
  | none => Except.error "Invalid page index"

/-- Embedding of `handleExtractPages`: requires a file and a range, then
copies the parsed page indices into a fresh document. -/
def handleExtractPages {α : Type} (pages : List α) (range : String) :
    Except String (List α) :=
  if range = "" then Except.error "PDF file and page range required"
  else copyPages pages (parsePageRange range pages.length)

/-- Embedding of `handleDeletePages`: parse the pages to delete, keep
the complement, and fail when nothing would remain. -/
def handleDeletePages {α : Type} (pages : List α) (pagesToDelete : String) :
    Except String (List α) :=
  if pagesToDelete = "" then Except.error "PDF file and pages to delete required"
  else if (((List.range pages.length).map (fun (i : Nat) => (i : Int))).filter
      (fun i => !((parsePageRange pagesToDelete pages.length).contains i))).length = 0 then
    Except.error "Cannot delete all pages"
  else
    copyPages pages (((List.range pages.length).map (fun (i : Nat) => (i : Int))).filter
      (fun i => !((parsePageRange pagesToDelete pages.length).contains i)))

/-- Page selector shared by rotate and watermark: `all`, `odd`, `even`,
or a page-range expression. -/
def selectorIndices (sel : String) (totalPages : Nat) : List Int :=
  if sel = "all" then (List.range totalPages).map (fun (i : Nat) => (i : Int))
  else if sel = "odd" then
    ((List.range totalPages).filter (fun i => i % 2 == 0)).map (fun (i : Nat) => (i : Int))
  else if sel = "even" then
    ((List.range totalPages).filter (fun i => i % 2 == 1)).map (fun (i : Nat) => (i : Int))
  else parsePageRange sel totalPages

/-- Replace the element at one position, leaving the list unchanged when
the position is out of range. -/
def modifyAt {α : Type} : List α → Nat → (α → α) → List α
  | [], _, _ => []
  | a :: as, 0, f => f a :: as
  | a :: as, n + 1, f => a :: modifyAt as n f

/-- The `pageIndices.forEach` mutation loop: apply `f` to the page at
each listed index in turn. -/
def foldModify {α : Type} (pages : List α) (idxs : List Int) (f : α → α) : List α :=
  idxs.foldl (fun ps i => if 0 ≤ i then modifyAt ps i.toNat f else ps) pages

/-- Embedding of `handleRotate`: validate the angle, then set each
selected page rotation to the current rotation plus the angle. -/
def handleRotate (pages : List PdfPage) (angle : Int) (sel : String) :
    Except String (List PdfPage) :=
  if angle = 90 ∨ angle = 180 ∨ angle = 270 ∨ angle = -90 ∨ angle = -180 ∨ angle = -270 then
    Except.ok (foldModify pages (selectorIndices sel pages.length)
      (fun p => { p with rotation := p.rotation + angle }))
  else Except.error "Invalid rotation angle. Use 90, 180, or 270 degrees"

/-- Embedding of `handleWatermark` restricted to the document effect the
claims are about: the watermark text is drawn onto each selected page
(layout parameters are library-level drawing arguments). -/
def handleWatermark (pages : List PdfPage) (text : String) (sel : String) :
    Except String (List PdfPage) :=
  Except.ok (foldModify pages (selectorIndices sel pages.length)
    (fun p => { p with drawn := p.drawn ++ [text] }))

/-- The reorder parsing step: split the order string on commas, trim
each part, parse it and subtract one; `none` models a `NaN` entry. -/
def parseOrder (order : String) : List (Option Int) :=
  (splitOnChar ',' order.data).map (fun s => (jsParseInt (trimChars s)).map (fun n => n - 1))

/-- `copyPages` when the index list may hold `NaN` entries. -/
def copyPagesOpt {α : Type} (pages : List α) (idxs : List (Option Int)) :
    Except String (List α) :=
  match idxs.mapM (fun oi => oi.bind (fun i => if 0 ≤ i then pages[i.toNat]? else none)) with
  | some res => Except.ok res
  | none => Except.error "Invalid page index"

/-- Embedding of `handleReorderPages`: parse the order, reject a length
mismatch, reject an entry that is (as a number) below 0 or at least the
page count, and otherwise copy the pages in the given order.  Note the
source checks length and bounds only: it never checks for duplicate
entries. -/
def entryOutOfBounds (total : Int) (oi : Option Int) : Bool :=
  match oi with
  | some i => decide (i < 0 ∨ total ≤ i)
  | none => false

def handleReorderPages {α : Type} (pages : List α) (order : String) :
    Except String (List α) :=
  if order = "" then Except.error "PDF file and new page order required"
  else if (parseOrder order).length ≠ pages.length then
    Except.error "Order must include all pages"
  else if (parseOrder order).any (entryOutOfBounds (pages.length : Int)) then
    Except.error "Invalid page number in order"
  else copyPagesOpt pages (parseOrder order)

theorem modifyAt_getElem? {α : Type} (l : List α) (n : Nat) (f : α → α) (m : Nat) :
    (modifyAt l n f)[m]? = if m = n then (l[n]?).map f else l[m]? := by
  induction l generalizing n m with
  | nil => simp [modifyAt]
  | cons a as ih =>
    cases n with
    | zero =>
      cases m with
      | zero => simp [modifyAt]
      | succ m => simp [modifyAt]
    | succ n =>
      cases m with
      | zero => simp [modifyAt]
      | succ m => simpa [modifyAt] using ih n m

theorem modifyAt_length {α : Type} (l : List α) (n : Nat) (f : α → α) :
    (modifyAt l n f).length = l.length := by
  induction l generalizing n with
  | nil => simp [modifyAt]
  | cons a as ih =>
    cases n with
    | zero => simp [modifyAt]
    | succ n => simpa [modifyAt] using ih n

theorem foldModify_length {α : Type} (pages : List α) (idxs : List Int) (f : α → α) :
    (foldModify pages idxs f).length = pages.length := by
  induction idxs generalizing pages with
  | nil => simp [foldModify]
  | cons i rest ih =>
    show (foldModify ((fun ps j => if 0 ≤ j then modifyAt ps j.toNat f else ps) pages i)
      rest f).length = pages.length
    by_cases h : (0 : Int) ≤ i
    · simp only [h, if_pos]
      rw [ih, modifyAt_length]
    · simp only [h, if_neg, not_false_iff]
      exact ih _

theorem foldModify_getElem? {α : Type} {idxs : List Int} (pages : List α) (f : α → α)
    (h0 : ∀ i ∈ idxs, 0 ≤ i) (hnd : idxs.Nodup) (j : Nat) :
    (foldModify pages idxs f)[j]? =
      if (j : Int) ∈ idxs then (pages[j]?).map f else pages[j]? := by
  induction idxs generalizing pages with
  | nil => simp [foldModify]
  | cons i rest ih =>
    have h0i : (0 : Int) ≤ i := h0 i (by simp)
    have h0r : ∀ x ∈ rest, (0 : Int) ≤ x := fun x hx => h0 x (by simp [hx])
    have hir : i ∉ rest := (List.nodup_cons.mp hnd).1
    have hndr : rest.Nodup := (List.nodup_cons.mp hnd).2
    have step : foldModify pages (i :: rest) f = foldModify (modifyAt pages i.toNat f) rest f := by
      show foldModify ((fun ps k => if 0 ≤ k then modifyAt ps k.toNat f else ps) pages i)
        rest f = _
      simp only [h0i, if_pos]
    rw [step, ih (modifyAt pages i.toNat f) h0r hndr, modifyAt_getElem?]
    have hcast : ((i.toNat : Int)) = i := Int.toNat_of_nonneg h0i
    by_cases hjr : (j : Int) ∈ rest
    · have hji : j ≠ i.toNat := by
        intro h
        apply hir
        rwa [h, hcast] at hjr
      rw [if_pos hjr, if_neg hji, if_pos (List.mem_cons.mpr (Or.inr hjr))]
    · by_cases hji : j = i.toNat
      · have hj : (j : Int) = i := by rw [hji, hcast]
        rw [if_neg hjr, if_pos hji, if_pos (List.mem_cons.mpr (Or.inl hj)), hji]
      · have hj : (j : Int) ≠ i := by
          intro h
          apply hji
          omega
        have hnotc : (j : Int) ∉ i :: rest := by
          rw [List.mem_cons]
          push_neg
          exact ⟨hj, hjr⟩
        rw [if_neg hjr, if_neg hji, if_neg hnotc]

theorem selectorIndices_bounds_nodup (sel : String) (total : Nat) :
    (∀ i ∈ selectorIndices sel total, 0 ≤ i ∧ i < (total : Int)) ∧
    (selectorIndices sel total).Nodup := by
  unfold selectorIndices
  split
  · refine ⟨?_, List.Nodup.map Nat.cast_injective (List.nodup_range _)⟩
    intro i hi
    rcases List.mem_map.mp hi with ⟨k, hk, rfl⟩
    have := List.mem_range.mp hk
    omega
  · split
    · refine ⟨?_, List.Nodup.map Nat.cast_injective ((List.nodup_range _).filter _)⟩
      intro i hi
      rcases List.mem_map.mp hi with ⟨k, hk, rfl⟩
      have := List.mem_range.mp (List.mem_of_mem_filter hk)
      omega
    · split
      · refine ⟨?_, List.Nodup.map Nat.cast_injective ((List.nodup_range _).filter _)⟩
        intro i hi
        rcases List.mem_map.mp hi with ⟨k, hk, rfl⟩
        have := List.mem_range.mp (List.mem_of_mem_filter hk)
        omega
      · obtain ⟨hs, hnd, hb⟩ := parsePageRange_props sel (total : Int)
        exact ⟨fun i hi => hb i hi, hnd⟩

/-- C6: a valid rotation angle is added to each selected page current
rotation (all other pages untouched), and rotating by `a` then by `-a`
over the same selector restores the original document exactly. -/
theorem handleRotate_additive_and_invertible (pages : List PdfPage) (sel : String) (a : Int)
    (ha : a = 90 ∨ a = 180 ∨ a = 270 ∨ a = -90 ∨ a = -180 ∨ a = -270) :
    ∃ out, handleRotate pages a sel = Except.ok out ∧
      out.length = pages.length ∧
      (∀ j : Nat, (j : Int) ∈ selectorIndices sel pages.length →
        out[j]? = (pages[j]?).map (fun p => { p with rotation := p.rotation + a })) ∧
      (∀ j : Nat, (j : Int) ∉ selectorIndices sel pages.length → out[j]? = pages[j]?) ∧
      handleRotate out (-a) sel = Except.ok pages := by
  have ha' : -a = 90 ∨ -a = 180 ∨ -a = 270 ∨ -a = -90 ∨ -a = -180 ∨ -a = -270 := by
    rcases ha with h | h | h | h | h | h <;> subst h <;> norm_num
  obtain ⟨hb, hnd⟩ := selectorIndices_bounds_nodup sel pages.length
  have h0 : ∀ i ∈ selectorIndices sel pages.length, (0 : Int) ≤ i :=
    fun i hi => (hb i hi).1
  have hlen : (foldModify pages (selectorIndices sel pages.length)
      (fun p => { p with rotation := p.rotation + a })).length = pages.length :=
    foldModify_length _ _ _
  refine ⟨_, by rw [handleRotate, if_pos ha], hlen, ?_, ?_, ?_⟩
  · intro j hj
    rw [foldModify_getElem? pages _ h0 hnd j, if_pos hj]
  · intro j hj
    rw [foldModify_getElem? pages _ h0 hnd j, if_neg hj]
  · rw [handleRotate, if_pos ha', hlen]
    congr 1
    apply List.ext_getElem?
    intro j
    rw [foldModify_getElem? _ _ h0 hnd j]
    by_cases hj : (j : Int) ∈ selectorIndices sel pages.length
    · rw [if_pos hj, foldModify_getElem? pages _ h0 hnd j, if_pos hj]
      cases hp : pages[j]? with
      | none => simp
      | some p =>
        cases p with
        | mk c r d => simp

    · rw [if_neg hj, foldModify_getElem? pages _ h0 hnd j, if_neg hj]

theorem handleRotate_additive_and_invertible_witness :
    ∃ out, handleRotate [⟨0, 0, []⟩, ⟨1, 90, []⟩] 90 "all" = Except.ok out ∧
      out.length = ([⟨0, 0, []⟩, ⟨1, 90, []⟩] : List PdfPage).length ∧
      (∀ j : Nat, (j : Int) ∈ selectorIndices "all" ([⟨0, 0, []⟩, ⟨1, 90, []⟩] : List PdfPage).length →
        out[j]? = (([⟨0, 0, []⟩, ⟨1, 90, []⟩] : List PdfPage)[j]?).map
          (fun p => { p with rotation := p.rotation + 90 })) ∧
      (∀ j : Nat, (j : Int) ∉ selectorIndices "all" ([⟨0, 0, []⟩, ⟨1, 90, []⟩] : List PdfPage).length →
        out[j]? = ([⟨0, 0, []⟩, ⟨1, 90, []⟩] : List PdfPage)[j]?) ∧
      handleRotate out (-90) "all" = Except.ok [⟨0, 0, []⟩, ⟨1, 90, []⟩] :=
  handleRotate_additive_and_invertible [⟨0, 0, []⟩, ⟨1, 90, []⟩] "all" 90 (Or.inl rfl)

theorem mapM_option_of_all_some {β γ : Type} {f : β → Option γ} {l : List β}
    (h : ∀ b ∈ l, (f b).isSome) :
    ∃ res, l.mapM f = some res ∧ res.length = l.length ∧
      ∀ k : Nat, res[k]? = (l[k]?).bind f := by
  induction l with
  | nil => exact ⟨[], rfl, rfl, fun k => by simp⟩
  | cons b bs ih =>
    obtain ⟨c, hc⟩ := Option.isSome_iff_exists.mp (h b (by simp))
    obtain ⟨res, hres, hlen, hget⟩ := ih (fun x hx => h x (by simp [hx]))
    refine ⟨c :: res, ?_, by simp [hlen], ?_⟩
    · rw [List.mapM_cons, hc, hres]
      rfl
    · intro k
      cases k with
      | zero => simp [hc]
      | succ k => simpa using hget k

/-- C5 counterexample: a length-matching, in-bounds order with a
duplicate entry is accepted, not rejected: reordering a three-page
document by `1,1,2` succeeds and duplicates the first page. -/
theorem handleReorderPages_accepts_duplicates :
    handleReorderPages ([10, 20, 30] : List Nat) "1,1,2" = Except.ok [10, 10, 20] ∧
    ¬ ∃ msg, handleReorderPages ([10, 20, 30] : List Nat) "1,1,2" = Except.error msg := by
  refine ⟨rfl, ?_⟩
  rintro ⟨msg, h⟩
  rw [show handleReorderPages ([10, 20, 30] : List Nat) "1,1,2" = Except.ok [10, 10, 20]
    from rfl] at h
  exact Except.noConfusion h

/-- C5 amended: the reorder handler fails when the parsed order length
differs from the page count or when an entry is numerically out of
bounds; any length-matching in-bounds order (duplicates included) is
accepted, and output page `k` is input page `order[k]`. -/
theorem handleReorderPages_validation (α : Type) (pages : List α) (order : String) :
    ((parseOrder order).length ≠ pages.length →
      ∃ msg, handleReorderPages pages order = Except.error msg) ∧
    (∀ i : Int, some i ∈ parseOrder order → (i < 0 ∨ (pages.length : Int) ≤ i) →
      ∃ msg, handleReorderPages pages order = Except.error msg) ∧
    (∀ os : List Int, parseOrder order = os.map some → os.length = pages.length →
      (∀ i ∈ os, 0 ≤ i ∧ i < (pages.length : Int)) →
      ∃ out, handleReorderPages pages order = Except.ok out ∧
        out.length = pages.length ∧
        ∀ (k : Nat) (i : Int), os[k]? = some i → out[k]? = pages[i.toNat]?) := by
  refine ⟨?_, ?_, ?_⟩
  · intro hlen
    by_cases h0 : order = ""
    · exact ⟨"PDF file and new page order required", by
        unfold handleReorderPages
        rw [if_pos h0]⟩
    · exact ⟨"Order must include all pages", by
        unfold handleReorderPages
        rw [if_neg h0, if_pos hlen]⟩
  · intro i hi hib
    by_cases h0 : order = ""
    · exact ⟨"PDF file and new page order required", by
        unfold handleReorderPages
        rw [if_pos h0]⟩
    by_cases hlen : (parseOrder order).length ≠ pages.length
    · exact ⟨"Order must include all pages", by
        unfold handleReorderPages
        rw [if_neg h0, if_pos hlen]⟩
    · refine ⟨"Invalid page number in order", ?_⟩
      have hany : (parseOrder order).any (entryOutOfBounds (pages.length : Int)) = true := by
        rw [List.any_eq_true]
        refine ⟨some i, hi, ?_⟩
        show decide (i < 0 ∨ (pages.length : Int) ≤ i) = true
        simpa using hib
      unfold handleReorderPages
      rw [if_neg h0, if_neg hlen, if_pos hany]
  · intro os hos hlen hbnd
    have h0 : order ≠ "" := by
      intro h
      subst h
      have hnil : parseOrder "" = [none] := rfl
      rw [hnil] at hos
      cases os with
      | nil => exact List.noConfusion hos
      | cons o os' =>
        rw [List.map_cons] at hos
        exact Option.noConfusion (List.head_eq_of_cons_eq hos)
    have hlen' : ¬ (parseOrder order).length ≠ pages.length := by
      rw [hos, List.length_map, hlen]
      exact fun h => h rfl
    have hany : (parseOrder order).any (entryOutOfBounds (pages.length : Int)) = false := by
      rw [List.any_eq_false]
      intro oi hoi
      rcases List.mem_map.mp (hos ▸ hoi) with ⟨i, hios, rfl⟩
      have hb := hbnd i hios
      show ¬ (decide (i < 0 ∨ (pages.length : Int) ≤ i) = true)
      simp only [decide_eq_true_eq]
      omega
    have hsome : ∀ oi ∈ parseOrder order,
        (oi.bind (fun i => if 0 ≤ i then pages[i.toNat]? else none)).isSome := by
      intro oi hoi
      rcases List.mem_map.mp (hos ▸ hoi) with ⟨i, hios, rfl⟩
      have hb := hbnd i hios
      have hlt : i.toNat < pages.length := by omega
      rw [Option.some_bind, if_pos hb.1, List.getElem?_eq_getElem hlt]
      rfl
    obtain ⟨res, hres, hreslen, hget⟩ := mapM_option_of_all_some hsome
    refine ⟨res, ?_, by rw [hreslen, hos, List.length_map, hlen], ?_⟩
    · unfold handleReorderPages copyPagesOpt
      rw [if_neg h0, if_neg hlen']
      rw [show ((parseOrder order).any (entryOutOfBounds (pages.length : Int))) = false
        from hany]
      simp only [Bool.false_eq_true, if_false, hres]
    · intro k i hk
      have hkos : (parseOrder order)[k]? = some (some i) := by
        rw [hos, List.getElem?_map, hk]
        rfl
      rw [hget k, hkos]
      have hi : 0 ≤ i := by
        have : i ∈ os := by
          have := List.getElem?_mem hk
          exact this
        exact (hbnd i this).1
      simp only [Option.some_bind]
      rw [if_pos hi]

theorem handleReorderPages_validation_witness :
    (∃ msg, handleReorderPages ([10, 20, 30] : List Nat) "3,1" = Except.error msg) ∧
    (∃ out, handleReorderPages ([10, 20, 30] : List Nat) "3,1,2" = Except.ok out ∧
      out.length = ([10, 20, 30] : List Nat).length ∧
      ∀ (k : Nat) (i : Int), ([2, 0, 1] : List Int)[k]? = some i →
        out[k]? = ([10, 20, 30] : List Nat)[i.toNat]?) :=
  ⟨(handleReorderPages_validation Nat [10, 20, 30] "3,1").1 (by decide),
   (handleReorderPages_validation Nat [10, 20, 30] "3,1,2").2.2 [2, 0, 1]
     (by decide) (by decide) (by decide)⟩

/-- C10: the parser is a total function whose every returned index lies
in `[0, n)`; malformed parts, out-of-bounds pages and descending ranges
are silently dropped (possibly leaving no indices at all), and the
downstream handlers then act on the empty selection without any
validation error. -/
theorem parsePageRange_total_silent_drop :
    (∀ (r : String) (n x : Int), x ∈ parsePageRange r n → 0 ≤ x ∧ x < n) ∧
    parsePageRange "abc" 5 = [] ∧
    parsePageRange "0" 5 = [] ∧
    parsePageRange "9" 5 = [] ∧
    parsePageRange "5-3" 9 = [] ∧
    handleExtractPages ([10, 20, 30] : List Nat) "5-3" = Except.ok [] ∧
    handleDeletePages ([10, 20, 30] : List Nat) "7" = Except.ok [10, 20, 30] ∧
    handleRotate [⟨0, 0, []⟩, ⟨1, 90, []⟩] 90 "5-3" = Except.ok [⟨0, 0, []⟩, ⟨1, 90, []⟩] ∧
    handleWatermark [⟨0, 0, []⟩] "CONFIDENTIAL" "5-3" = Except.ok [⟨0, 0, []⟩] := by
  refine ⟨?_, rfl, rfl, rfl, rfl, rfl, rfl, rfl, rfl⟩
  intro r n x hx
  exact (parsePageRange_props r n).2.2 x hx

theorem parsePageRange_total_silent_drop_witness :
    (0 : Int) ≤ 1 ∧ (1 : Int) < 5 :=
  parsePageRange_total_silent_drop.1 "2-100" 5 1 (by decide)

/-! Certificate verification from `src/app/api/pdf-signatures/route.ts`
(`handleVerifySignature`, branch with a `certificateId` supplied).  The
SHA-256 of the presented bytes (`hashDocument`) is a library collaborator;
the embedding takes the resulting hex digest as input. -/

/-- A `certificate_records` row (schema of migration 002). -/
structure CertRecord where
  certificate_id : String
  signer_name : String
  document_hash : String
  revoked_at : Option Int
  expires_at : Option Int
deriving Repr, DecidableEq

/-- The fields of the verification response the claims are about. -/
structure VerifyOutcome where
  found : Bool
  valid : Bool
  hashMatch : Bool
deriving Repr, DecidableEq

/-- Embedding of `handleVerifySignature`: look up the certificate row;
when absent report `valid = false`; when present report
`valid = hashMatch`, where `hashMatch` compares the stored
`document_hash` with the presented digest.  The route reads no other
column for validity. -/
def handleVerifySignature (cert : Option CertRecord) (documentHash : String) :
    VerifyOutcome :=
  match cert with
  | none => { found := false, valid := false, hashMatch := false }
  | some c =>
    { found := true
      valid := decide (c.document_hash = documentHash)
      hashMatch := decide (c.document_hash = documentHash) }

/-- Modelled from the spec words, for comparison with the route: a
certificate is valid iff it is not revoked, not expired at the
verification time, and the presented digest equals the stored hash. -/
def specCertValid (c : CertRecord) (documentHash : String) (now : Int) : Bool :=
  c.revoked_at.isNone &&
    (match c.expires_at with
     | none => true
     | some t => decide (now ≤ t)) &&
    decide (c.document_hash = documentHash)

/-- C7 counterexample: a revoked certificate whose stored hash matches
the presented digest is reported `valid = true` by the route, though the
claimed validity function says `false`. -/
theorem verify_ignores_revocation :
    (handleVerifySignature (some ⟨"CERT-1", "A", "h", some 0, none⟩) "h").valid = true ∧
    specCertValid ⟨"CERT-1", "A", "h", some 0, none⟩ "h" 100 = false := by
  constructor <;> decide

/-- C7 amended: the route reports `valid = true` iff the certificate row
exists and its stored hash equals the presented digest; revocation and
expiry are never consulted.  In particular a digest mismatch always
yields `valid = false`. -/
theorem verify_valid_iff_hash_match (cert : Option CertRecord) (documentHash : String) :
    (handleVerifySignature cert documentHash).valid = true ↔
      ∃ c, cert = some c ∧ c.document_hash = documentHash := by
  cases cert with
  | none => simp [handleVerifySignature]
  | some c => simp [handleVerifySignature]

/-! The PDF-operations dispatcher (`POST` of the operations route).  The
request-level effects on the credit ledger are recorded as an event
trace: `deductRpc` for the `deduct_credits` RPC call and `insertTxn` for
the `credit_transactions` insert issued by `deductCredits`. -/

/-- The fixed operation cost table of the operations route. -/
def CREDIT_COSTS : List (String × Int) :=
  [("merge", 2), ("split", 2), ("rotate", 1), ("compress", 3), ("watermark", 2),
   ("protect", 2), ("unlock", 3), ("extract_pages", 1), ("add_page_numbers", 1),
   ("delete_pages", 1), ("reorder_pages", 1)]

def lookupCost (op : String) : Option Int := CREDIT_COSTS.lookup op

/-- A ledger call issued while serving a request. -/
inductive LedgerEvent where
  | deductRpc (amount : Int)
  | insertTxn (amount : Int)
deriving Repr, DecidableEq

/-- Environment of one request: the requested operation, whether the
bearer token verifies, the stored balance read during the credit check,
and which later steps fail (the handler throwing, the deduct RPC
erroring). -/
structure DispatchEnv where
  operation : String
  authValid : Bool
  balance : Int
  handlerFails : Bool
  rpcFails : Bool
deriving Repr, DecidableEq

/-- HTTP status plus the trace of ledger calls issued. -/
structure DispatchOutcome where
  status : Nat
  events : List LedgerEvent
deriving Repr, DecidableEq

namespace PdfOps

/-- The operations with a case in the dispatch switch.  `protect` and
`unlock` are priced in `CREDIT_COSTS` but have no case, so the switch
default answers them 501 without running a handler or charging. -/
def HANDLED_OPS : List String :=
  ["merge", "split", "rotate", "compress", "watermark", "extract_pages",
   "add_page_numbers", "delete_pages", "reorder_pages"]

/-- Embedding of the operations route `POST`: unknown operation is 400
before anything else; failed auth is 401; insufficient balance is 402; a
priced operation with no switch case falls to the switch default, 501,
with no handler run and no ledger call; a handler that throws is caught
as 500 with `deductCredits` never invoked; otherwise `deductCredits`
issues the RPC (whose failure throws, giving 500 after the RPC call) and
then the transaction insert, and the PDF is returned as 200. -/
def POST (env : DispatchEnv) : DispatchOutcome :=
  match lookupCost env.operation with
  | none => { status := 400, events := [] }
  | some cost =>
    if env.authValid = false then { status := 401, events := [] }
    else if env.balance < cost then { status := 402, events := [] }
    else if HANDLED_OPS.contains env.operation = false then { status := 501, events := [] }
    else if env.handlerFails then { status := 500, events := [] }
    else if env.rpcFails then { status := 500, events := [LedgerEvent.deductRpc cost] }
    else { status := 200,
           events := [LedgerEvent.deductRpc cost, LedgerEvent.insertTxn (-cost)] }

end PdfOps

/-- C8: ledger calls happen only after an operation handler has run and
succeeded.  A failing handler leaves an empty ledger trace and a non-200
response (500 when the request is authenticated, funded, and for an
operation with a switch case); a priced operation without a switch case
gets the switch default 501 with no ledger call; and any nonempty ledger
trace implies a handled operation whose handler succeeded behind a
valid, sufficiently funded request. -/
theorem dispatch_charges_only_after_handler_success (env : DispatchEnv) :
    (env.handlerFails = true →
      (PdfOps.POST env).events = [] ∧ (PdfOps.POST env).status ≠ 200) ∧
    (env.handlerFails = true → ∀ c, lookupCost env.operation = some c →
      env.authValid = true → ¬ env.balance < c →
      PdfOps.HANDLED_OPS.contains env.operation = true →
      (PdfOps.POST env).status = 500) ∧
    (PdfOps.HANDLED_OPS.contains env.operation = false →
      (PdfOps.POST env).events = []) ∧
    ((PdfOps.POST env).events ≠ [] →
      env.handlerFails = false ∧ env.authValid = true ∧
      PdfOps.HANDLED_OPS.contains env.operation = true ∧
      ∃ c, lookupCost env.operation = some c ∧ ¬ env.balance < c) := by
  unfold PdfOps.POST
  rcases h : lookupCost env.operation with _ | c
  · refine ⟨fun _ => ⟨rfl, ?_⟩, fun _ c hc => Option.noConfusion hc,
      fun _ => rfl, fun hne => absurd rfl hne⟩
    show (400 : Nat) ≠ 200
    decide
  · refine ⟨?_, ?_, ?_, ?_⟩
    · intro hf
      rcases ha : env.authValid with _ | _
      · simp [ha]
      · by_cases hbal : env.balance < c
        · simp [ha, hbal]
        · rcases hh : PdfOps.HANDLED_OPS.contains env.operation with _ | _
          · have hmem : env.operation ∉ PdfOps.HANDLED_OPS := by simpa using hh
            simp [ha, hbal, hmem]
          · have hmem : env.operation ∈ PdfOps.HANDLED_OPS := by simpa using hh
            simp [ha, hbal, hmem, hf]
    · intro hf c' hc' ha hbal hh
      injection hc' with hcc
      subst hcc
      have hmem : env.operation ∈ PdfOps.HANDLED_OPS := by simpa using hh
      simp [ha, hbal, hmem, hf]
    · intro hh
      have hmem : env.operation ∉ PdfOps.HANDLED_OPS := by simpa using hh
      rcases ha : env.authValid with _ | _
      · simp [ha]
      · by_cases hbal : env.balance < c
        · simp [ha, hbal]
        · simp [ha, hbal, hmem]
    · intro hne
      rcases ha : env.authValid with _ | _
      · simp [ha] at hne
      · simp only [ha] at hne ⊢
        by_cases hbal : env.balance < c
        · simp [hbal] at hne
        · rcases hh : PdfOps.HANDLED_OPS.contains env.operation with _ | _
          · have hmem : env.operation ∉ PdfOps.HANDLED_OPS := by simpa using hh
            simp [hbal, hmem] at hne
          · have hmem : env.operation ∈ PdfOps.HANDLED_OPS := by simpa using hh
            rcases hf : env.handlerFails with _ | _
            · exact ⟨rfl, trivial, rfl, c, rfl, hbal⟩
            · simp [hbal, hmem, hf] at hne

theorem dispatch_charges_only_after_handler_success_witness :
    ((PdfOps.POST ⟨"merge", true, 10, true, false⟩).events = [] ∧
      (PdfOps.POST ⟨"merge", true, 10, true, false⟩).status ≠ 200) ∧
    (PdfOps.POST ⟨"merge", true, 10, true, false⟩).status = 500 ∧
    (PdfOps.POST ⟨"protect", true, 10, false, false⟩).events = [] :=
  ⟨(dispatch_charges_only_after_handler_success ⟨"merge", true, 10, true, false⟩).1 rfl,
   (dispatch_charges_only_after_handler_success ⟨"merge", true, 10, true, false⟩).2.1 rfl 2
     (by decide) rfl (by decide) (by decide),
   (dispatch_charges_only_after_handler_success ⟨"protect", true, 10, false, false⟩).2.2.1
     (by decide)⟩

/-! The credits-deduct route (`POST /api/credits/deduct`).  Its inputs
are the `Authorization` header, the JSON body fields, and the
`user_credits` row of the given `user_id` (none when no row exists, in
which case `.single()` errors and the route responds 500). -/

/-- The JSON body fields the route destructures. -/
structure DeductRequestBody where
  user_id : Option String
  amount : Option Int
deriving Repr, DecidableEq

/-- Response summary: HTTP status, the `success` flag, and
`remaining_credits` when present. -/
structure DeductRouteResponse where
  status : Nat
  success : Bool
  remaining_credits : Option Int
deriving Repr, DecidableEq

namespace CreditsDeduct

/-- Embedding of the credits-deduct route `POST`.  The route never
reads the `Authorization` header: `authHeader` is accepted and ignored,
exactly as in the source.  A falsy `user_id` or `amount` is 400; a
missing credits row is a fetch error (500); `current < amount` is 402
with nothing written; otherwise the row is set to `current - amount`, a
transaction row is inserted (its error ignored), and the route responds
with `success` and the remaining credits. -/
def POST (_authHeader : Option String) (body : DeductRequestBody)
    (credits : Option Int) : DeductRouteResponse × Option Int :=
  if body.user_id = none ∨ body.user_id = some "" ∨
      body.amount = none ∨ body.amount = some 0 then
    ({ status := 400, success := false, remaining_credits := none }, credits)
  else
    match credits, body.amount with
    | none, _ => ({ status := 500, success := false, remaining_credits := none }, none)
    | some c, none => ({ status := 400, success := false, remaining_credits := none }, some c)
    | some c, some amt =>
      if c < amt then
        ({ status := 402, success := false, remaining_credits := none }, some c)
      else
        ({ status := 200, success := true, remaining_credits := some (c - amt) },
         some (c - amt))

end CreditsDeduct

/-- C9: the route accepts and processes a deduction with no
`Authorization` header at all: the stored balance is mutated and the
response is 200, not 401. -/
theorem creditsDeduct_requires_no_auth :
    (CreditsDeduct.POST none ⟨some "u1", some 3⟩ (some 10)).1.status = 200 ∧
    (CreditsDeduct.POST none ⟨some "u1", some 3⟩ (some 10)).1.success = true ∧
    (CreditsDeduct.POST none ⟨some "u1", some 3⟩ (some 10)).2 = some 7 ∧
    (CreditsDeduct.POST none ⟨some "u1", some 3⟩ (some 10)).1.status ≠ 401 := by
  refine ⟨?_, ?_, ?_, ?_⟩ <;> decide

end JavariPdf
